import Mathlib

/-!
Shallow embedding of the DMP-RAG pipeline core
(`fairdataihub/AI_DMP`): text chunking, FAISS index build/load
orchestration, RAG section generation, document assembly and the
top-level runner, together with proofs of the behavioural claims.

Python strings are modelled as Lean `String`s; the Python primitives
`str.strip`, `str.join`, `str.split`, `str.title` and `str.replace`
used by the code are re-implemented below on `List Char` so that
their properties can be proved by list induction.
-/

namespace AIDmp

/-- Characters treated as whitespace by Python's `str.strip()` /
`str.split()` (ASCII whitespace set). -/
def pyIsSpace (c : Char) : Bool :=
  c = ' ' || c = '\t' || c = '\n' || c = '\r' || c = '\x0b' || c = '\x0c'

/-- Model of Python `str.strip()` at the character-list level:
drop leading and trailing whitespace. -/
def stripList (l : List Char) : List Char :=
  ((l.dropWhile pyIsSpace).reverse.dropWhile pyIsSpace).reverse

/-- Model of Python `str.strip()`. -/
def pyStrip (s : String) : String := ⟨stripList s.toList⟩

/-- Model of Python `sep.join(list)`. -/
def pyJoin (sep : String) : List String → String
  | [] => ""
  | [x] => x
  | x :: y :: xs => x ++ sep ++ pyJoin sep (y :: xs)

/-- Helper for `pyWords`: accumulate the current word (reversed). -/
def pySplitAux : List Char → List Char → List (List Char)
  | [], cur => if cur.isEmpty then [] else [cur.reverse]
  | c :: cs, cur =>
    if pyIsSpace c then
      if cur.isEmpty then pySplitAux cs [] else cur.reverse :: pySplitAux cs []
    else pySplitAux cs (c :: cur)

/-- Model of Python `text.split()` (split on whitespace runs, no
empty words). -/
def pyWords (text : String) : List String :=
  (pySplitAux text.toList []).map (fun l => ⟨l⟩)

/-! ### Basic lemmas about the string primitives -/

theorem dropWhile_head_not (p : Char → Bool) :
    ∀ (l : List Char) (a : Char) (t : List Char),
      l.dropWhile p = a :: t → p a = false := by
  intro l
  induction l with
  | nil => intro a t h; simp [List.dropWhile] at h
  | cons b l ih =>
    intro a t h
    by_cases hb : p b
    · rw [List.dropWhile_cons_of_pos hb] at h
      exact ih a t h
    · rw [List.dropWhile_cons_of_neg hb] at h
      cases h
      simpa using hb

theorem mem_of_mem_dropWhile (p : Char → Bool) :
    ∀ (l : List Char) (c : Char), c ∈ l.dropWhile p → c ∈ l := by
  intro l
  induction l with
  | nil => intro c h; simp [List.dropWhile] at h
  | cons b l ih =>
    intro c h
    by_cases hb : p b
    · rw [List.dropWhile_cons_of_pos hb] at h
      exact List.mem_cons_of_mem b (ih c h)
    · rw [List.dropWhile_cons_of_neg hb] at h
      exact h

theorem getLast?_cons_ne_nil (a : Char) (l : List Char) (h : l ≠ []) :
    (a :: l).getLast? = l.getLast? := by
  cases l with
  | nil => exact absurd rfl h
  | cons b t => simp [List.getLast?_cons_cons]

theorem getLast?_dropWhile (p : Char → Bool) :
    ∀ (l : List Char), l.dropWhile p ≠ [] →
      (l.dropWhile p).getLast? = l.getLast? := by
  intro l
  induction l with
  | nil => intro h; simp [List.dropWhile] at h
  | cons b l ih =>
    intro h
    by_cases hb : p b
    · rw [List.dropWhile_cons_of_pos hb] at h ⊢
      have hl : l ≠ [] := by
        intro hnil; rw [hnil] at h; simp [List.dropWhile] at h
      rw [ih h, getLast?_cons_ne_nil b l hl]
    · rw [List.dropWhile_cons_of_neg hb]

theorem mem_of_mem_stripList (l : List Char) (c : Char)
    (h : c ∈ stripList l) : c ∈ l := by
  unfold stripList at h
  rw [List.mem_reverse] at h
  have h2 := mem_of_mem_dropWhile pyIsSpace _ _ h
  rw [List.mem_reverse] at h2
  exact mem_of_mem_dropWhile pyIsSpace _ _ h2

/-- The first character of a stripped list is not whitespace. -/
theorem stripList_head_not_space (l : List Char) (a : Char)
    (h : (stripList l).head? = some a) : pyIsSpace a = false := by
  unfold stripList at h
  rw [List.head?_reverse] at h
  have hne : (List.dropWhile pyIsSpace (List.dropWhile pyIsSpace l).reverse) ≠ [] := by
    intro hnil; rw [hnil] at h; simp at h
  rw [getLast?_dropWhile pyIsSpace _ hne, List.getLast?_reverse] at h
  obtain ⟨t, ht⟩ : ∃ t, List.dropWhile pyIsSpace l = a :: t := by
    cases heq : List.dropWhile pyIsSpace l with
    | nil => rw [heq] at h; simp at h
    | cons x t =>
      rw [heq] at h; simp at h
      exact ⟨t, by rw [h]⟩
  exact dropWhile_head_not pyIsSpace l a t ht

/-- The last character of a stripped list is not whitespace. -/
theorem stripList_getLast_not_space (l : List Char) (a : Char)
    (h : (stripList l).getLast? = some a) : pyIsSpace a = false := by
  unfold stripList at h
  rw [List.getLast?_reverse] at h
  obtain ⟨t, ht⟩ :
      ∃ t, List.dropWhile pyIsSpace (List.dropWhile pyIsSpace l).reverse = a :: t := by
    cases heq : List.dropWhile pyIsSpace (List.dropWhile pyIsSpace l).reverse with
    | nil => rw [heq] at h; simp at h
    | cons x t =>
      rw [heq] at h; simp at h
      exact ⟨t, by rw [h]⟩
  exact dropWhile_head_not pyIsSpace _ a t ht

/-! ### `_clean_filename` (dmp_generator.py) -/

/-- The filesystem-forbidden characters replaced by
`_clean_filename`'s regex `[\\/*?:"<>|]`. -/
def forbiddenFileChars : List Char := ['\\', '/', '*', '?', ':', '\"', '<', '>', '|']

/-- Model of `_clean_filename`: replace every forbidden character by
an underscore, then strip surrounding whitespace
(`re.sub(r'[\\/*?:"<>|]', "_", str(name)).strip()`). -/
def cleanFilename (s : String) : String :=
  ⟨stripList (s.toList.map (fun c => if c ∈ forbiddenFileChars then '_' else c))⟩

theorem toList_cleanFilename (s : String) :
    (cleanFilename s).toList =
      stripList (s.toList.map (fun c => if c ∈ forbiddenFileChars then '_' else c)) := rfl

/-- C10: for every input, `_clean_filename` returns a string containing
none of the filesystem-forbidden characters `\ / * ? : " < > |` and with
no leading or trailing whitespace, hence a valid single path component. -/
theorem clean_filename_valid_component (s : String) :
    (∀ c ∈ (cleanFilename s).toList, c ∉ forbiddenFileChars) ∧
    (∀ a, (cleanFilename s).toList.head? = some a → pyIsSpace a = false) ∧
    (∀ a, (cleanFilename s).toList.getLast? = some a → pyIsSpace a = false) := by
  refine ⟨?_, ?_, ?_⟩
  · intro c hc hmem
    rw [toList_cleanFilename] at hc
    have h1 := mem_of_mem_stripList _ _ hc
    rw [List.mem_map] at h1
    obtain ⟨c0, _, hc0⟩ := h1
    by_cases hf : c0 ∈ forbiddenFileChars
    · rw [if_pos hf] at hc0
      rw [← hc0] at hmem
      simp [forbiddenFileChars] at hmem
    · rw [if_neg hf] at hc0
      rw [← hc0] at hmem
      exact hf hmem
  · intro a ha
    rw [toList_cleanFilename] at ha
    exact stripList_head_not_space _ a ha
  · intro a ha
    rw [toList_cleanFilename] at ha
    exact stripList_getLast_not_space _ a ha

/-- Witness for C10 at the concrete input `" a:b* "`
(which cleans to `"a_b_"`). -/
theorem clean_filename_valid_component_w :
    ('a' ∉ forbiddenFileChars) ∧ pyIsSpace 'a' = false ∧ pyIsSpace '_' = false :=
  ⟨(clean_filename_valid_component " a:b* ").1 'a' (by decide),
   (clean_filename_valid_component " a:b* ").2.1 'a' (by decide),
   (clean_filename_valid_component " a:b* ").2.2 '_' (by decide)⟩

/-! ### Section generator (4-NIH_rag_generator.py) -/

theorem data_append (a b : String) : (a ++ b).data = a.data ++ b.data := by
  cases a; cases b; rfl

/-- Helper for `pyTitle`: the boolean records whether the previous
character was alphabetic. -/
def pyTitleAux : Bool → List Char → List Char
  | _, [] => []
  | prevAlpha, c :: cs =>
    (if c.isAlpha then (if prevAlpha then c.toLower else c.toUpper) else c)
      :: pyTitleAux c.isAlpha cs

/-- Model of Python `str.title()` (ASCII letters). -/
def pyTitle (s : String) : String := ⟨pyTitleAux false s.toList⟩

/-- Model of `section_key.replace("_", " ").title()` as used for the
`section_name` prompt variable and for markdown headings. -/
def sectionDisplayName (key : String) : String :=
  pyTitle ⟨key.toList.map (fun c => if c = '_' then ' ' else c)⟩

/-- The error values raised by the pipeline (all surfaced as
`DocumentPortalException` in the source). -/
inductive Err where
  | promptMissing (sectionKey : String)
  | provider (msg : String)
  | corpusEmpty
  | loadFailed
  | sectionGen (sectionKey : String) (inner : Err)
  deriving Repr, DecidableEq

/-- A retrieved LangChain document: only its `page_content` matters
to the generator. -/
structure Document where
  page_content : String
  deriving Repr, DecidableEq

/-- Model of `_join_docs`: combine retrieved chunks into one context string,
double-newline separated (`"\n\n".join([d.page_content for d in docs])`). -/
def joinDocs (docs : List Document) : String :=
  pyJoin "\n\n" (docs.map (fun d => d.page_content))

/-- The context computation of `generate_section` (lines 79-86):
empty string when nothing was retrieved, otherwise the first `top_k`
documents joined. -/
def sectionContext (docs : List Document) (top_k : Nat) : String :=
  if docs.isEmpty then "" else joinDocs (docs.take top_k)

/-- The variables passed to the prompt template and hence to the LLM. -/
structure PromptVars where
  project_info : String
  context : String
  section_name : String
  deriving Repr, DecidableEq

/-- The fallback text substituted for empty model output
(`f"[No content generated for {section_key}]"`). -/
def noContentPlaceholder (key : String) : String :=
  "[" ++ "No content generated for " ++ key ++ "]"

/-- Postprocessing step 5 of `generate_section`: `None`/empty/
whitespace-only model output becomes the placeholder, anything else is
stripped. -/
def postprocessResponse (key : String) (t : Option String) : String :=
  match t with
  | none => noContentPlaceholder key
  | some s => if pyStrip s = "" then noContentPlaceholder key else pyStrip s

/-- The keys of `PROMPT_REGISTRY` (prompt_library.py). -/
def promptRegistryKeys : List String :=
  ["dmp_data_types", "dmp_metadata", "dmp_access", "dmp_preservation", "dmp_oversight"]

/-- Model of `NIH_DMPGeneratorRAG.generate_section`.  The retriever's
output for this section's query is `retrievedDocs`; the LLM is an
opaque service mapping the filled prompt variables to either an error
or a response whose `content` may be absent (`none`). Any error raised
inside is wrapped (`DocumentPortalException(f"Section generation
error: ...")`). -/
def generate_section (sectionPromptMap : List (String × String))
    (registryKeys : List String)
    (llm : PromptVars → Except Err (Option String))
    (projectInfoStr : String) (retrievedDocs : List Document)
    (section_key : String) (top_k : Nat) : Except Err String :=
  let context := sectionContext retrievedDocs top_k
  match sectionPromptMap.lookup section_key with
  | none => .error (.sectionGen section_key (.promptMissing section_key))
  | some promptValue =>
    if registryKeys.contains promptValue then
      match llm { project_info := projectInfoStr, context := context,
                  section_name := sectionDisplayName section_key } with
      | .error e => .error (.sectionGen section_key e)
      | .ok t => .ok (postprocessResponse section_key t)
    else .error (.sectionGen section_key (.promptMissing section_key))

theorem noContentPlaceholder_head (key : String) :
    (noContentPlaceholder key).toList.head? = some '[' := by
  show ((("[" ++ "No content generated for ") ++ key) ++ "]").data.head? = some '['
  rw [data_append, data_append, data_append]
  rfl

theorem toList_pyStrip (t : String) : (pyStrip t).toList = stripList t.toList := rfl

theorem ne_empty_of_head (s : String) (a : Char) (h : s.toList.head? = some a) :
    s ≠ "" := by
  intro hs
  rw [hs] at h
  simp [String.toList] at h

/-- Heads of postprocessed responses are never whitespace. -/
theorem postprocessResponse_head (key : String) (t : Option String) (a : Char)
    (h : (postprocessResponse key t).toList.head? = some a) : pyIsSpace a = false := by
  cases t with
  | none =>
    rw [postprocessResponse, noContentPlaceholder_head] at h
    cases h
    rfl
  | some u =>
    rw [postprocessResponse] at h
    by_cases hu : pyStrip u = ""
    · rw [if_pos hu, noContentPlaceholder_head] at h
      cases h
      rfl
    · rw [if_neg hu, toList_pyStrip] at h
      exact stripList_head_not_space _ a h

/-- Postprocessed responses are never the empty string. -/
theorem postprocessResponse_ne_empty (key : String) (t : Option String) :
    postprocessResponse key t ≠ "" := by
  cases t with
  | none => exact ne_empty_of_head _ '[' (noContentPlaceholder_head key)
  | some u =>
    rw [postprocessResponse]
    by_cases hu : pyStrip u = ""
    · rw [if_pos hu]
      exact ne_empty_of_head _ '[' (noContentPlaceholder_head key)
    · rw [if_neg hu]
      exact hu

/-- C1: `generate_section` never returns an empty or whitespace-only
string: when the model response strips to empty the result is exactly
the placeholder, otherwise it is the stripped model output. -/
theorem generate_section_never_empty
    (pm : List (String × String)) (reg : List String)
    (llm : PromptVars → Except Err (Option String))
    (info : String) (docs : List Document) (key : String) (tk : Nat) (s : String)
    (h : generate_section pm reg llm info docs key tk = .ok s) :
    s ≠ "" ∧ (∀ a, s.toList.head? = some a → pyIsSpace a = false) ∧
    (∀ t, llm { project_info := info, context := sectionContext docs tk,
                section_name := sectionDisplayName key } = .ok (some t) →
       (pyStrip t = "" → s = noContentPlaceholder key) ∧
       (pyStrip t ≠ "" → s = pyStrip t)) := by
  unfold generate_section at h
  dsimp only at h
  split at h
  · simp at h
  · split at h
    · rename_i pv hlk hc
      split at h
      · simp at h
      · rename_i t0 hllm
        have hs : s = postprocessResponse key t0 := by
          cases h; rfl
        subst hs
        refine ⟨postprocessResponse_ne_empty key t0, postprocessResponse_head key t0, ?_⟩
        intro t hllm2
        rw [hllm] at hllm2
        have ht0 : t0 = some t := by cases hllm2; rfl
        subst ht0
        constructor
        · intro hstrip
          rw [postprocessResponse, if_pos hstrip]
        · intro hstrip
          rw [postprocessResponse, if_neg hstrip]
    · simp at h

/-- Witness for C1: an LLM that answers with surrounding whitespace only. -/
theorem generate_section_never_empty_w :
    postprocessResponse "access" (some "  \n ") ≠ "" :=
  (generate_section_never_empty [("access", "dmp_access")] promptRegistryKeys
      (fun _ => .ok (some "  \n ")) "info" [] "access" 6
      (postprocessResponse "access" (some "  \n ")) rfl).1

/-- C6: an empty retrieval result is not an error — the section is
still generated with the empty context string; a non-empty retrieval
yields as context the texts of at most `top_k` chunks, in retrieval
order, double-newline separated. -/
theorem generate_section_empty_retrieval
    (pm : List (String × String)) (reg : List String)
    (llm : PromptVars → Except Err (Option String))
    (info : String) (key : String) (tk : Nat) (pv : String) (r : Option String) :
    (sectionContext [] tk = "") ∧
    (pm.lookup key = some pv → reg.contains pv = true →
      llm { project_info := info, context := "",
            section_name := sectionDisplayName key } = .ok r →
      generate_section pm reg llm info [] key tk = .ok (postprocessResponse key r)) ∧
    (∀ docs : List Document, docs ≠ [] →
      sectionContext docs tk =
        pyJoin "\n\n" ((docs.take tk).map (fun d => d.page_content)) ∧
      (docs.take tk).length ≤ tk) := by
  refine ⟨rfl, ?_, ?_⟩
  · intro hlk hc hllm
    unfold generate_section
    rw [hlk]
    dsimp only
    rw [if_pos hc]
    have hctx : sectionContext [] tk = "" := rfl
    rw [hctx, hllm]
  · intro docs hd
    constructor
    · rw [sectionContext, if_neg (by simpa using hd)]
      rfl
    · exact List.length_take_le tk docs

/-- Witness for C6: a one-entry prompt map, the real registry keys and
a concrete LLM response. -/
theorem generate_section_empty_retrieval_w :
    generate_section [("access", "dmp_access")] promptRegistryKeys
        (fun _ => .ok (some "hello")) "info" [] "access" 6 = .ok "hello" := by
  have h := (generate_section_empty_retrieval [("access", "dmp_access")]
      promptRegistryKeys (fun _ => .ok (some "hello")) "info" "access" 6
      "dmp_access" (some "hello")).2.1 (by decide) (by decide) rfl
  have h2 : postprocessResponse "access" (some "hello") = "hello" := by decide
  rw [h2] at h
  exact h

/-! ### Assembler (6-rag_assembler.py) -/

theorem append_assoc_str (a b c : String) : (a ++ b) ++ c = a ++ (b ++ c) := by
  cases a; cases b; cases c
  exact congrArg String.mk (List.append_assoc _ _ _)

theorem append_empty_str (a : String) : a ++ "" = a := by
  cases a; exact congrArg String.mk (List.append_nil _)

theorem empty_append_str (a : String) : "" ++ a = a := by
  cases a; rfl

/-- The `project_info` mapping as consumed by `DMPAssembler.to_markdown`:
`none` models an absent key. -/
structure ProjectInfo where
  project_title : Option String := none
  pi_name : Option String := none
  institution : Option String := none
  deriving Repr, DecidableEq

/-- The `lines` list built by `DMPAssembler.to_markdown` before joining:
title line, blank, optional PI/institution lines (only for truthy
values, matching the walrus-`if`), a blank, then heading/body/blank per
section. -/
def mdHeaderLines (info : ProjectInfo) : List String :=
  ["# " ++ ("DMP: " ++ info.project_title.getD "Research Project"), ""] ++
  (match info.pi_name with
   | some pi => if pi = "" then [] else ["**PI:** " ++ pi]
   | none => []) ++
  (match info.institution with
   | some inst => if inst = "" then [] else ["**Institution:** " ++ inst]
   | none => []) ++
  [""]

/-- The per-section lines appended by the `for key, txt in
sections.items()` loop. -/
def sectionLines (sections : List (String × String)) : List String :=
  sections.flatMap (fun kt => ["## " ++ sectionDisplayName kt.1, kt.2, ""])

/-- Model of `DMPAssembler.to_markdown`: build the lines and join with
newlines. Sections are an association list in caller-supplied order
(Python dicts preserve insertion order). -/
def to_markdown (sections : List (String × String)) (info : ProjectInfo) : String :=
  pyJoin "\n" (mdHeaderLines info ++ sectionLines sections)

/-- Model of `DMPAssembler.save_docx`: any conversion failure is caught
and turned into `None`; on success the output path is returned. -/
def save_docx (conversionFails : Bool) (out_path : String) : Option String :=
  if conversionFails then none else some out_path

/-- Modelled from the spec: the document it describes — a title line
from the title field (default `Research Project`), optional PI and
institution metadata lines only when present, then one heading + body
block per section in caller order. Refinement target for the
`to_markdown` claim. -/
def toMarkdownHeaderSpec (info : ProjectInfo) : String :=
  "# " ++ ("DMP: " ++ info.project_title.getD "Research Project") ++ "\n" ++ "\n" ++
  (match info.pi_name with
   | some pi => if pi = "" then "" else "**PI:** " ++ pi ++ "\n"
   | none => "") ++
  (match info.institution with
   | some inst => if inst = "" then "" else "**Institution:** " ++ inst ++ "\n"
   | none => "")

/-- Modelled from the spec: one heading + body block per section, in
list order. -/
def sectionBlocksSpec : List (String × String) → String
  | [] => ""
  | kt :: rest =>
    "\n" ++ "## " ++ sectionDisplayName kt.1 ++ "\n" ++ kt.2 ++ "\n" ++
      sectionBlocksSpec rest

theorem pyJoin_append (sep : String) :
    ∀ xs ys : List String, xs ≠ [] → ys ≠ [] →
      pyJoin sep (xs ++ ys) = pyJoin sep xs ++ sep ++ pyJoin sep ys := by
  intro xs
  induction xs with
  | nil => intro ys h _; exact absurd rfl h
  | cons x xs ih =>
    intro ys _ hy
    cases xs with
    | nil =>
      cases ys with
      | nil => exact absurd rfl hy
      | cons y t => rfl
    | cons x' xs' =>
      have h1 : pyJoin sep ((x :: x' :: xs') ++ ys)
          = x ++ sep ++ pyJoin sep ((x' :: xs') ++ ys) := rfl
      rw [h1, ih ys (by simp) hy]
      rw [show pyJoin sep (x :: x' :: xs')
            = x ++ sep ++ pyJoin sep (x' :: xs') from rfl]
      simp [append_assoc_str]

theorem pyJoin_sectionLines (sections : List (String × String)) :
    ∀ ls : List String, ls ≠ [] →
      pyJoin "\n" (ls ++ sectionLines sections)
        = pyJoin "\n" ls ++ sectionBlocksSpec sections := by
  induction sections with
  | nil =>
    intro ls _
    simp [sectionLines, sectionBlocksSpec, append_empty_str]
  | cons kt rest ih =>
    intro ls h
    have hsl : sectionLines (kt :: rest)
        = ["## " ++ sectionDisplayName kt.1, kt.2, ""] ++ sectionLines rest := rfl
    rw [hsl, ← List.append_assoc]
    rw [ih (ls ++ ["## " ++ sectionDisplayName kt.1, kt.2, ""]) (by simp)]
    rw [pyJoin_append "\n" ls ["## " ++ sectionDisplayName kt.1, kt.2, ""] h (by simp)]
    rw [show pyJoin "\n" ["## " ++ sectionDisplayName kt.1, kt.2, ""]
          = ("## " ++ sectionDisplayName kt.1) ++ "\n" ++ (kt.2 ++ "\n" ++ "") from rfl]
    rw [show sectionBlocksSpec (kt :: rest)
          = "\n" ++ "## " ++ sectionDisplayName kt.1 ++ "\n" ++ kt.2 ++ "\n" ++
              sectionBlocksSpec rest from rfl]
    simp only [append_assoc_str, append_empty_str]

theorem str_ext {a b : String} (h : a.data = b.data) : a = b := by
  cases a; cases b; cases h; rfl

theorem data_empty : ("" : String).data = [] := rfl

theorem pyJoin_mdHeaderLines (info : ProjectInfo) :
    pyJoin "\n" (mdHeaderLines info) = toMarkdownHeaderSpec info := by
  unfold mdHeaderLines toMarkdownHeaderSpec
  cases info.pi_name with
  | none =>
    cases info.institution with
    | none => apply str_ext; simp [pyJoin, data_append, data_empty]
    | some inst =>
      by_cases hi : inst = "" <;>
        (apply str_ext; simp [hi, pyJoin, data_append, data_empty])
  | some pi =>
    by_cases hp : pi = "" <;>
    cases info.institution with
    | none => apply str_ext; simp [hp, pyJoin, data_append, data_empty]
    | some inst =>
      by_cases hi : inst = "" <;>
        (apply str_ext; simp [hp, hi, pyJoin, data_append, data_empty])

theorem mdHeaderLines_ne_nil (info : ProjectInfo) : mdHeaderLines info ≠ [] := by
  simp [mdHeaderLines]

/-- C7: `DMPAssembler.to_markdown` is a pure function of its two
arguments and equals the spec-described document: title line (default
`Research Project`), PI/institution lines only when those fields are
present (and non-empty), then exactly one heading + body block per
section in caller-supplied order. -/
theorem to_markdown_pure_spec (sections : List (String × String)) (info : ProjectInfo) :
    to_markdown sections info = toMarkdownHeaderSpec info ++ sectionBlocksSpec sections := by
  unfold to_markdown
  rw [pyJoin_sectionLines sections (mdHeaderLines info) (mdHeaderLines_ne_nil info),
      pyJoin_mdHeaderLines]

/-! ### Indexer (3-NIH_rag_indexer.py) -/

/-- Which of the two persisted FAISS artifacts
(`<index_name>.faiss` and `<index_name>.pkl`) exist on disk. -/
structure IndexState where
  faissExists : Bool
  pklExists : Bool
  deriving Repr, DecidableEq

/-- Model of `DMPIndexNIH._index_exists`: both artifacts must be present. -/
def indexExists (st : IndexState) : Bool := st.faissExists && st.pklExists

/-- A chunk document as assembled by `build_from_chunks`:
`Document(page_content=chunk_text, metadata={"source": src, "id": i})`. -/
structure ChunkDoc where
  page_content : String
  source : String
  id : Nat
  deriving Repr, DecidableEq

/-- The documents read from the chunk JSON files (one array element per
chunk, ids in array order). -/
def chunkDocsOfFiles (files : List (String × List String)) : List ChunkDoc :=
  files.flatMap (fun f => f.2.enum.map (fun p => ⟨p.2, f.1, p.1⟩))

/-- Model of `DMPIndexNIH.build_from_chunks`. The first component is the
outcome (error when no chunk files are found, before any embedding);
the second counts corpus embedding passes (`FAISS.from_documents`
calls). -/
def build_from_chunks (files : List (String × List String)) :
    Except Err (List ChunkDoc) × Nat :=
  if files.isEmpty then (.error .corpusEmpty, 0)
  else (.ok (chunkDocsOfFiles files), 1)

/-- Model of `DMPIndexNIH.load_local`: loading fails unless both artifacts are
present. -/
def load_local (st : IndexState) : Except Err Unit :=
  if st.faissExists && st.pklExists then .ok () else .error .loadFailed

/-- Model of `DMPIndexNIH.load_or_build`: returns outcome, the index state on
disk afterwards, and the number of embedding passes performed. -/
def load_or_build (files : List (String × List String)) (st : IndexState) :
    Except Err Unit × IndexState × Nat :=
  if indexExists st then (.ok (), st, 0)
  else
    match build_from_chunks files with
    | (.error e, n) => (.error e, st, n)
    | (.ok _, n) => (.ok (), ⟨true, true⟩, n)

/-! ### Runner (7-rag_dmp_runner.py) -/

inductive IndexAction where
  | build
  | load
  deriving Repr, DecidableEq

/-- The runner's Step 1 decision (lines 77-84): it consults only the
`rebuild_index` flag and the existence of the `.faiss` file. -/
def runnerIndexAction (rebuild faissExists : Bool) : IndexAction :=
  if rebuild || !faissExists then .build else .load

/-- The runner's Step 1 as a whole: build (persisting both artifacts)
or load; the `Nat` counts embedding passes. -/
def runnerIndexStep (rebuild : Bool) (files : List (String × List String))
    (st : IndexState) : Except Err (IndexState × Nat) :=
  match runnerIndexAction rebuild st.faissExists with
  | .build =>
    match build_from_chunks files with
    | (.error e, _) => .error e
    | (.ok _, n) => .ok (⟨true, true⟩, n)
  | .load =>
    match load_local st with
    | .error e => .error e
    | .ok _ => .ok (st, 0)

/-- The default section map of `build_default_section_map`, as
`(section_key, PromptType.value)` pairs in insertion order. -/
def defaultSectionMap : List (String × String) :=
  [("data_types", "dmp_data_types"), ("metadata", "dmp_metadata"),
   ("access", "dmp_access"), ("preservation", "dmp_preservation"),
   ("oversight", "dmp_oversight")]

/-- The environment a run executes against: disk state, corpus, flags,
and the opaque retriever/LLM services. -/
structure RunEnv where
  st : IndexState
  chunkFiles : List (String × List String)
  rebuild : Bool
  sectionMap : List (String × String)
  retrieved : String → List Document
  llm : String → PromptVars → Except Err (Option String)
  info : ProjectInfo
  infoStr : String
  out_name : String
  docxFails : Bool
  top_k : Nat

/-- One `generator.generate_section(sec, project_info, top_k=top_k)`
call of the runner's loop. -/
def envGen (env : RunEnv) (sec : String) : Except Err String :=
  generate_section env.sectionMap promptRegistryKeys (env.llm sec) env.infoStr
    (env.retrieved sec) sec env.top_k

/-- The runner's Step 3 loop: generate each section in order, aborting
at the first raised error. -/
def runSections (env : RunEnv) : List String → Except Err (List (String × String))
  | [] => .ok []
  | k :: ks =>
    match envGen env k with
    | .error e => .error e
    | .ok t =>
      match runSections env ks with
      | .error e => .error e
      | .ok rest => .ok ((k, t) :: rest)

/-- A file written to disk during the run. -/
inductive WriteEvent where
  | markdown (path : String) (content : String)
  | docx (path : String)
  deriving Repr, DecidableEq

/-- The result dict of `run_rag_dmp`. -/
structure RunResult where
  sections : List (String × String)
  markdown_path : String
  docx_path : Option String
  deriving Repr, DecidableEq

/-- Model of `run_rag_dmp`: index step, section loop, assembly and
output writing.  The second component records every file write the
run performed (in order). -/
def run_rag_dmp (env : RunEnv) : Except Err RunResult × List WriteEvent :=
  match runnerIndexStep env.rebuild env.chunkFiles env.st with
  | .error e => (.error e, [])
  | .ok _ =>
    match runSections env (env.sectionMap.map Prod.fst) with
    | .error e => (.error e, [])
    | .ok sections =>
      let md_text := to_markdown sections env.info
      let md_path := env.out_name ++ ".md"
      let docx_saved := save_docx env.docxFails (env.out_name ++ ".docx")
      (.ok ⟨sections, md_path, docx_saved⟩,
        WriteEvent.markdown md_path md_text ::
          (match docx_saved with
           | some p => [WriteEvent.docx p]
           | none => []))

/-- C5: building from an empty chunks directory fails before any
embedding pass. -/
theorem build_from_chunks_empty_corpus (files : List (String × List String))
    (h : files = []) :
    build_from_chunks files = (.error .corpusEmpty, 0) := by
  subst h; rfl

/-- Witness for C5 at the empty corpus. -/
theorem build_from_chunks_empty_corpus_w :
    build_from_chunks [] = (.error .corpusEmpty, 0) :=
  build_from_chunks_empty_corpus [] rfl

/-- C2: with `rebuild_index = False` and both artifacts present the
runner takes the load path without embedding; `load_or_build` twice
with an unchanged corpus embeds at most once; `rebuild_index = True`
bypasses the load path and rebuilds. -/
theorem index_rebuild_policy (st : IndexState) (files : List (String × List String)) :
    (indexExists st = true →
      runnerIndexAction false st.faissExists = .load ∧
      runnerIndexStep false files st = .ok (st, 0)) ∧
    ((load_or_build files st).2.2 +
      (load_or_build files (load_or_build files st).2.1).2.2 ≤ 1) ∧
    (runnerIndexAction true st.faissExists = .build ∧
      (files ≠ [] → runnerIndexStep true files st = .ok (⟨true, true⟩, 1))) := by
  refine ⟨?_, ?_, ?_, ?_⟩
  · intro h
    have hf : st.faissExists = true := by
      rcases st with ⟨f, p⟩
      cases f
      · simp [indexExists] at h
      · rfl
    have hp : st.pklExists = true := by
      rcases st with ⟨f, p⟩
      cases p
      · simp [indexExists] at h
      · rfl
    constructor
    · rw [hf]; rfl
    · unfold runnerIndexStep
      rw [hf]
      rw [show runnerIndexAction false true = .load from rfl]
      unfold load_local
      rw [hf, hp]
      rfl
  · by_cases h : indexExists st = true
    · rw [load_or_build, if_pos h]
      dsimp only
      rw [load_or_build, if_pos h]
      simp
    · rw [load_or_build, if_neg h]
      cases files with
      | nil =>
        rw [show build_from_chunks [] = (.error .corpusEmpty, 0) from rfl]
        dsimp only
        rw [load_or_build, if_neg h]
        rw [show build_from_chunks [] = (.error .corpusEmpty, 0) from rfl]
        simp
      | cons f fs =>
        rw [show build_from_chunks (f :: fs)
              = (.ok (chunkDocsOfFiles (f :: fs)), 1) from rfl]
        dsimp only
        rw [load_or_build, if_pos (show indexExists ⟨true, true⟩ = true from rfl)]
        simp
  · rfl
  · intro hfiles
    unfold runnerIndexStep
    rw [show runnerIndexAction true st.faissExists = .build from by
      unfold runnerIndexAction; simp]
    cases files with
    | nil => exact absurd rfl hfiles
    | cons f fs =>
      rw [show build_from_chunks (f :: fs)
            = (.ok (chunkDocsOfFiles (f :: fs)), 1) from rfl]

/-- Witness for C2 with both artifacts present and a one-file corpus. -/
theorem index_rebuild_policy_w :
    runnerIndexStep false [("a", ["x"])] ⟨true, true⟩ = .ok (⟨true, true⟩, 0) ∧
    runnerIndexStep true [("a", ["x"])] ⟨true, true⟩ = .ok (⟨true, true⟩, 1) :=
  ⟨((index_rebuild_policy ⟨true, true⟩ [("a", ["x"])]).1 (by decide)).2,
   (index_rebuild_policy ⟨true, true⟩ [("a", ["x"])]).2.2.2 (by decide)⟩

/-- Counterexample for C3: with the `.faiss` artifact present but the
`.pkl` metadata store missing, `load_or_build` does not fail with a
corruption error — it silently rebuilds (one embedding pass, success). -/
theorem load_or_build_one_artifact_cex :
    (load_or_build [("a", ["x"])] ⟨true, false⟩).1 = .ok () ∧
    (load_or_build [("a", ["x"])] ⟨true, false⟩).2.2 = 1 :=
  ⟨rfl, rfl⟩

/-- C3 amended: when the two artifacts disagree, `_index_exists` is
false, so `load_or_build` treats the index as absent and silently
rebuilds from chunks (success, one embedding pass); the runner, which
checks only the `.faiss` file, silently rebuilds when `.faiss` is
missing and fails with a generic load error (not a corruption error)
when `.faiss` is present but `.pkl` is missing. -/
theorem load_or_build_one_artifact_amended (st : IndexState)
    (files : List (String × List String))
    (hone : indexExists st = false) (hfiles : files ≠ []) :
    (load_or_build files st).1 = .ok () ∧
    (load_or_build files st).2.1 = ⟨true, true⟩ ∧
    (load_or_build files st).2.2 = 1 ∧
    (st.faissExists = false →
      runnerIndexStep false files st = .ok (⟨true, true⟩, 1)) ∧
    (st.faissExists = true → st.pklExists = false →
      runnerIndexStep false files st = .error .loadFailed) := by
  obtain ⟨f, fs, rfl⟩ : ∃ f fs, files = f :: fs := by
    cases files with
    | nil => exact absurd rfl hfiles
    | cons f fs => exact ⟨f, fs, rfl⟩
  have hbuild : build_from_chunks (f :: fs) = (.ok (chunkDocsOfFiles (f :: fs)), 1) := rfl
  refine ⟨?_, ?_, ?_, ?_, ?_⟩
  · rw [load_or_build, if_neg (by rw [hone]; exact Bool.false_ne_true), hbuild]
  · rw [load_or_build, if_neg (by rw [hone]; exact Bool.false_ne_true), hbuild]
  · rw [load_or_build, if_neg (by rw [hone]; exact Bool.false_ne_true), hbuild]
  · intro hf
    unfold runnerIndexStep
    rw [hf]
    rw [show runnerIndexAction false false = .build from rfl, hbuild]
  · intro hf hp
    unfold runnerIndexStep
    rw [hf]
    rw [show runnerIndexAction false true = .load from rfl]
    unfold load_local
    rw [hf, hp]
    rfl

/-- Witness for the amended C3 with only the `.pkl` artifact present. -/
theorem load_or_build_one_artifact_amended_w :
    (load_or_build [("a", ["x"])] ⟨false, true⟩).1 = .ok () ∧
    runnerIndexStep false [("a", ["x"])] ⟨false, true⟩ = .ok (⟨true, true⟩, 1) :=
  ⟨(load_or_build_one_artifact_amended ⟨false, true⟩ [("a", ["x"])]
      (by decide) (by decide)).1,
   (load_or_build_one_artifact_amended ⟨false, true⟩ [("a", ["x"])]
      (by decide) (by decide)).2.2.2.1 rfl⟩

theorem runSections_error_of_mem (env : RunEnv) :
    ∀ (ks : List String) (sec : String) (e : Err), sec ∈ ks →
      envGen env sec = .error e →
      ∃ e2, runSections env ks = .error e2 := by
  intro ks
  induction ks with
  | nil => intro sec e h; simp at h
  | cons k ks ih =>
    intro sec e hmem hgen
    cases hek : envGen env k with
    | error e1 => exact ⟨e1, by simp [runSections, hek]⟩
    | ok t =>
      have hsec : sec ∈ ks := by
        rcases List.mem_cons.mp hmem with h1 | h1
        · subst h1; rw [hgen] at hek; cases hek
        · exact h1
      obtain ⟨e2, h2⟩ := ih sec e hsec hgen
      exact ⟨e2, by simp [runSections, hek, h2]⟩

/-- C4: under the fail-fast behaviour of the runner's loop, if any
`generate_section` call for a section in the run's order raises, the
whole run raises and writes no file at all (neither markdown nor
docx). -/
theorem run_failfast_no_writes (env : RunEnv) (sec : String) (e : Err)
    (hsec : sec ∈ env.sectionMap.map Prod.fst)
    (hgen : envGen env sec = .error e) :
    ∃ e2, run_rag_dmp env = (.error e2, []) := by
  unfold run_rag_dmp
  cases hidx : runnerIndexStep env.rebuild env.chunkFiles env.st with
  | error e1 => exact ⟨e1, rfl⟩
  | ok p =>
    obtain ⟨e3, hrs⟩ :=
      runSections_error_of_mem env (env.sectionMap.map Prod.fst) sec e hsec hgen
    exact ⟨e3, by rw [hrs]⟩

/-- Concrete environment for the C4 witness: healthy index, but the
LLM provider raises on the `oversight` section. -/
def c4Env : RunEnv where
  st := ⟨true, true⟩
  chunkFiles := [("a", ["x"])]
  rebuild := false
  sectionMap := defaultSectionMap
  retrieved := fun _ => []
  llm := fun sec _ =>
    if sec = "oversight" then .error (.provider "boom") else .ok (some "text")
  info := {}
  infoStr := "info"
  out_name := "dmp"
  docxFails := false
  top_k := 6

/-- Witness for C4: the provider error on `oversight` aborts the run
with no writes. -/
theorem run_failfast_no_writes_w :
    ∃ e2, run_rag_dmp c4Env = (.error e2, []) :=
  run_failfast_no_writes c4Env "oversight"
    (.sectionGen "oversight" (.provider "boom")) (by decide) rfl

/-- C8: a docx conversion failure is absorbed: `save_docx` returns
`None` rather than raising, and a run whose index step and section
loop succeed still completes, writing exactly the markdown file, with
`markdown_path` populated and `docx_path = None` in the result. -/
theorem run_docx_failure_nonfatal (env : RunEnv)
    (secs : List (String × String)) (p : IndexState × Nat)
    (hd : env.docxFails = true)
    (hidx : runnerIndexStep env.rebuild env.chunkFiles env.st = .ok p)
    (hsecs : runSections env (env.sectionMap.map Prod.fst) = .ok secs) :
    (∀ path, save_docx true path = none) ∧
    run_rag_dmp env =
      (.ok ⟨secs, env.out_name ++ ".md", none⟩,
        [WriteEvent.markdown (env.out_name ++ ".md") (to_markdown secs env.info)]) := by
  constructor
  · intro path; rfl
  · unfold run_rag_dmp
    rw [hidx, hsecs]
    dsimp only
    rw [hd]
    rfl

/-- Concrete environment for the C8 witness: the docx conversion
fails, every section generates `"text"`. -/
def c8Env : RunEnv where
  st := ⟨true, true⟩
  chunkFiles := [("a", ["x"])]
  rebuild := false
  sectionMap := defaultSectionMap
  retrieved := fun _ => []
  llm := fun _ _ => .ok (some "text")
  info := {}
  infoStr := "info"
  out_name := "dmp"
  docxFails := true
  top_k := 6

/-- The sections produced in the C8 witness environment. -/
def c8Secs : List (String × String) :=
  [("data_types", "text"), ("metadata", "text"), ("access", "text"),
   ("preservation", "text"), ("oversight", "text")]

/-- Witness for C8: the failed docx export leaves a completed run with
only the markdown write and a `None` docx path. -/
theorem run_docx_failure_nonfatal_w :
    run_rag_dmp c8Env =
      (.ok ⟨c8Secs, "dmp" ++ ".md", none⟩,
        [WriteEvent.markdown ("dmp" ++ ".md") (to_markdown c8Secs c8Env.info)]) :=
  (run_docx_failure_nonfatal c8Env c8Secs (⟨true, true⟩, 0) rfl rfl rfl).2

/-! ### Text chunker (5-Chunk_text.py) -/

/-- The `while start < len(words)` loop of `TextChunker.chunk_text`,
with explicit fuel so that the Python loop's possible divergence
(`start += chunk_size - overlap` with a non-positive step) is
representable: `none` means the fuel ran out.  The cursor is an `Int`
because the Python step `chunk_size - overlap` may be negative. -/
def chunkLoop (cs ov : Nat) (words : List String) :
    Nat → Int → Option (List (List String))
  | 0, _ => none
  | fuel + 1, start =>
    if start < (words.length : Int) then
      match chunkLoop cs ov words fuel (start + ((cs : Int) - (ov : Int))) with
      | none => none
      | some rest => some ((words.drop start.toNat).take cs :: rest)
    else some []

/-- Model of `TextChunker.chunk_text`: split into words, window them, and join
each window with single spaces.  Fuel `length + 1` is enough whenever
the loop terminates at all. -/
def chunk_text (cs ov : Nat) (text : String) : Option (List String) :=
  (chunkLoop cs ov (pyWords text) ((pyWords text).length + 1) 0).map
    (fun chunks => chunks.map (pyJoin " "))

/-- The Python loop terminates on `text` (some amount of fuel
suffices). -/
def chunkTerminates (cs ov : Nat) (text : String) : Prop :=
  ∃ fuel, (chunkLoop cs ov (pyWords text) fuel 0).isSome

theorem chunkLoop_none_of_step_nonpos (cs ov : Nat) (words : List String)
    (hw : words ≠ []) (hcs : cs ≤ ov) :
    ∀ (fuel : Nat) (start : Int), start ≤ 0 →
      chunkLoop cs ov words fuel start = none := by
  intro fuel
  induction fuel with
  | zero => intro start _; rfl
  | succ n ih =>
    intro start hstart
    have hlen : (0 : Int) < words.length := by
      have h1 : words.length ≠ 0 := by
        simpa using hw
      omega
    have hcond : start < (words.length : Int) := lt_of_le_of_lt hstart hlen
    have hstep : ((cs : Int) - (ov : Int)) ≤ 0 := by
      omega
    rw [chunkLoop, if_pos hcond, ih (start + ((cs : Int) - (ov : Int))) (by omega)]

theorem chunkLoop_isSome_of_step_pos (cs ov : Nat) (words : List String)
    (h : ov < cs) :
    ∀ (fuel : Nat) (start : Int), 1 ≤ fuel →
      (words.length : Int) < start + fuel →
      (chunkLoop cs ov words fuel start).isSome := by
  intro fuel
  induction fuel with
  | zero => intro start h1; omega
  | succ n ih =>
    intro start _ hbound
    by_cases hcond : start < (words.length : Int)
    · have hn1 : 1 ≤ n := by omega
      have hb : (words.length : Int) < (start + ((cs : Int) - (ov : Int))) + n := by
        omega
      have hrec := ih (start + ((cs : Int) - (ov : Int))) hn1 hb
      rw [chunkLoop, if_pos hcond]
      cases hrc : chunkLoop cs ov words n (start + ((cs : Int) - (ov : Int))) with
      | none => rw [hrc] at hrec; simp at hrec
      | some rest => simp
    · rw [chunkLoop, if_neg hcond]
      simp

theorem chunkLoop_covers (cs ov : Nat) (words : List String) (h : ov < cs) :
    ∀ (fuel : Nat) (start : Int) (chunks : List (List String)),
      0 ≤ start →
      chunkLoop cs ov words fuel start = some chunks →
      ∀ (i : Nat) (x : String), start ≤ (i : Int) → words[i]? = some x →
        ∃ c ∈ chunks, x ∈ c := by
  intro fuel
  induction fuel with
  | zero => intro start chunks _ hloop; simp [chunkLoop] at hloop
  | succ n ih =>
    intro start chunks hpos hloop i x hix hget
    have hilen : i < words.length := by
      by_contra hge
      rw [List.getElem?_eq_none (by omega)] at hget
      cases hget
    by_cases hcond : start < (words.length : Int)
    · rw [chunkLoop, if_pos hcond] at hloop
      cases hrc : chunkLoop cs ov words n (start + ((cs : Int) - (ov : Int))) with
      | none => rw [hrc] at hloop; cases hloop
      | some rest =>
        rw [hrc] at hloop
        have hchunks : chunks = (words.drop start.toNat).take cs :: rest := by
          cases hloop; rfl
        subst hchunks
        have hsnat : (start.toNat : Int) = start := Int.toNat_of_nonneg hpos
        by_cases hin : (i : Int) < start + cs
        · -- the word is inside the current window
          refine ⟨(words.drop start.toNat).take cs, List.mem_cons_self _ _, ?_⟩
          have hsle : start.toNat ≤ i := by omega
          have hilt : i - start.toNat < cs := by omega
          have hw1 : ((words.drop start.toNat).take cs)[i - start.toNat]? = some x := by
            rw [List.getElem?_take_of_lt hilt, List.getElem?_drop]
            rw [show start.toNat + (i - start.toNat) = i from by omega]
            exact hget
          exact List.getElem?_mem hw1
        · -- the word is covered by a later window
          have hnext : start + ((cs : Int) - (ov : Int)) ≤ (i : Int) := by omega
          have hnextpos : 0 ≤ start + ((cs : Int) - (ov : Int)) := by omega
          obtain ⟨c, hc, hxc⟩ := ih _ rest hnextpos hrc i x hnext hget
          exact ⟨c, List.mem_cons_of_mem _ hc, hxc⟩
    · rw [chunkLoop, if_neg hcond] at hloop
      omega

/-- C9: `TextChunker.chunk_text` terminates exactly when the text has
no words or `chunk_size > overlap`; under `chunk_size > overlap` it
terminates with default fuel and every word of the input occurs in at
least one produced window. -/
theorem chunk_text_termination_coverage (cs ov : Nat) (text : String) :
    (chunkTerminates cs ov text ↔ (pyWords text = [] ∨ ov < cs)) ∧
    (ov < cs → ∃ chunks,
      chunkLoop cs ov (pyWords text) ((pyWords text).length + 1) 0 = some chunks ∧
      chunk_text cs ov text = some (chunks.map (pyJoin " ")) ∧
      ∀ w ∈ pyWords text, ∃ c ∈ chunks, w ∈ c) := by
  have hsome : ov < cs →
      ∃ chunks, chunkLoop cs ov (pyWords text) ((pyWords text).length + 1) 0
        = some chunks := by
    intro hc
    have h1 := chunkLoop_isSome_of_step_pos cs ov (pyWords text) hc
      ((pyWords text).length + 1) 0 (by omega) (by omega)
    exact Option.isSome_iff_exists.mp h1
  constructor
  · constructor
    · intro hterm
      by_contra hneg
      push_neg at hneg
      obtain ⟨hwords, hcs⟩ := hneg
      obtain ⟨fuel, hfuel⟩ := hterm
      rw [chunkLoop_none_of_step_nonpos cs ov (pyWords text) hwords (by omega)
        fuel 0 le_rfl] at hfuel
      simp at hfuel
    · rintro (hwords | hcs)
      · exact ⟨1, by rw [show chunkLoop cs ov (pyWords text) 1 0 = some [] from by
          rw [hwords]; rfl]; rfl⟩
      · obtain ⟨chunks, hchunks⟩ := hsome hcs
        exact ⟨(pyWords text).length + 1, by rw [hchunks]; rfl⟩
  · intro hcs
    obtain ⟨chunks, hchunks⟩ := hsome hcs
    refine ⟨chunks, hchunks, ?_, ?_⟩
    · unfold chunk_text
      rw [hchunks]
      rfl
    · intro w hw
      obtain ⟨i, hget⟩ := List.getElem?_of_mem hw
      exact chunkLoop_covers cs ov (pyWords text) hcs _ 0 chunks le_rfl hchunks i w
        (by omega) hget

/-- Witness for C9 at `chunk_size = 2`, `overlap = 1`,
text `"a b c"`. -/
theorem chunk_text_termination_coverage_w :
    chunkTerminates 2 1 "a b c" ∧
    ∃ chunks,
      chunkLoop 2 1 (pyWords "a b c") ((pyWords "a b c").length + 1) 0 = some chunks ∧
      chunk_text 2 1 "a b c" = some (chunks.map (pyJoin " ")) ∧
      ∀ w ∈ pyWords "a b c", ∃ c ∈ chunks, w ∈ c :=
  ⟨(chunk_text_termination_coverage 2 1 "a b c").1.mpr (Or.inr (by decide)),
   (chunk_text_termination_coverage 2 1 "a b c").2 (by decide)⟩
